import Mathlib

/-!
Verification development for `scripts/generate-example.py`.

The script locates, for each configured provider, the largest file matching
glob patterns under the provider's default directory, and copies a
row-limited "example" of it into a destination directory.

The embedding below models:
  * Python text-mode I/O on Linux: reading a file with `open(p, 'r')`
    (newline=None) enables universal-newlines mode, translating `\r\n`
    and lone `\r` to `\n` on read; writing with `open(p, 'w')` translates
    `\n` to `os.linesep`, which is `\n` on Linux, i.e. the identity.
    File contents are modelled as `List Char` / `String`
    (one `Char` per byte position; for UTF-8 text, equality of the decoded
    character sequences coincides with byte equality).
  * the JSON documents handled by `json.load` / `json.dump`, as the
    inductive type `Json` (JSON numbers restricted to integers; Python's
    arbitrary-precision ints map exactly to `Int`; floats are out of scope).
  * fallible I/O through an explicit environment `IOEnv` recording which
    of the operations performed by the script succeed, and destination
    files as explicit `Option String` state threaded through each step.
-/


/-! ## Python text-mode reading: universal newlines and line splitting -/

/-- Universal-newlines translation done by Python's text-mode reading
(`open(p, 'r')`, `newline=None`): `\r\n` and lone `\r` become `\n`. -/
def pyUniv : List Char → List Char
  | [] => []
  | c :: rest =>
    if c = '\r' then
      match rest with
      | [] => ['\n']
      | d :: rest2 =>
        if d = '\n' then '\n' :: pyUniv rest2 else '\n' :: pyUniv (d :: rest2)
    else c :: pyUniv rest

/-- Splitting a translated stream into lines as Python file iteration does:
each line ends with `'\n'` except possibly an unterminated final line. -/
def splitAfterLF : List Char → List (List Char)
  | [] => []
  | c :: rest =>
    if c = '\n' then ['\n'] :: splitAfterLF rest
    else
      match splitAfterLF rest with
      | [] => [[c]]
      | l :: ls => (c :: l) :: ls

/-- The lines Python's text-mode iteration yields for source content `src`. -/
def pyLines (src : String) : List (List Char) := splitAfterLF (pyUniv src.data)

/-- Modelled from the spec: the "source lines, each with its original line
terminator" that C2 speaks of — the raw byte stream cut after each `\n`,
`\r\n`, or lone `\r`, keeping the original terminator bytes. -/
def rawLines : List Char → List (List Char)
  | [] => []
  | c :: rest =>
    if c = '\r' then
      match rest with
      | [] => [['\r']]
      | d :: rest2 =>
        if d = '\n' then ['\r', '\n'] :: rawLines rest2
        else ['\r'] :: rawLines (d :: rest2)
    else if c = '\n' then ['\n'] :: rawLines rest
    else
      match rawLines rest with
      | [] => [[c]]
      | l :: ls => (c :: l) :: ls

/-! ## JSON documents (`json` module values, numbers restricted to ints) -/

/-- JSON documents as handled by `json.load` / `json.dump`.  Python dicts
preserve insertion order, so objects are ordered association lists. -/
inductive Json where
  | null
  | bool (b : Bool)
  | num (n : Int)
  | str (s : String)
  | arr (elems : List Json)
  | obj (members : List (String × Json))

/-- Decimal digit character (`d < 10`). -/
def digitChar (d : Nat) : Char :=
  match d with
  | 0 => '0' | 1 => '1' | 2 => '2' | 3 => '3' | 4 => '4'
  | 5 => '5' | 6 => '6' | 7 => '7' | 8 => '8' | _ => '9'

/-- Lower-case hexadecimal digit character (`d < 16`). -/
def hexChar (d : Nat) : Char :=
  match d with
  | 10 => 'a' | 11 => 'b' | 12 => 'c' | 13 => 'd' | 14 => 'e' | 15 => 'f'
  | d => digitChar d

/-- Decimal digits of `n`, most significant first (fuelled; `fuel > n`
suffices). -/
def natDigitsAux : Nat → Nat → List Char
  | 0, _ => []
  | fuel+1, n =>
    if n < 10 then [digitChar n]
    else natDigitsAux fuel (n / 10) ++ [digitChar (n % 10)]

/-- Decimal representation of a natural number, as `repr` produces it. -/
def natDigits (n : Nat) : List Char := natDigitsAux (n + 1) n

/-- Python `repr` of an integer: optional `-` sign then decimal digits. -/
def intRepr (i : Int) : List Char :=
  if i < 0 then '-' :: natDigits i.natAbs else natDigits i.natAbs

/-- The escaping `json.dump(..., ensure_ascii=False)` applies inside string
literals: only `"`, `\` and control characters below U+0020 are escaped;
everything else — in particular all non-ASCII characters — is emitted
verbatim. -/
def escapeChar (c : Char) : List Char :=
  if c = '"' then ['\\', '"']
  else if c = '\\' then ['\\', '\\']
  else if c = '\n' then ['\\', 'n']
  else if c = '\r' then ['\\', 'r']
  else if c = '\t' then ['\\', 't']
  else if c = '\x08' then ['\\', 'b']
  else if c = '\x0c' then ['\\', 'f']
  else if c.toNat < 32 then ['\\', 'u', '0', '0', hexChar (c.toNat / 16), hexChar (c.toNat % 16)]
  else [c]

/-- A JSON string literal as `json.dump` emits it. -/
def encodeString (s : String) : List Char :=
  '"' :: (s.data.flatMap escapeChar ++ ['"'])

/-- The newline-plus-indentation separator `json.dump(..., indent=2)` uses
at nesting level `lvl`. -/
def nlIndent (lvl : Nat) : List Char := '\n' :: List.replicate (2 * lvl) ' '

mutual
/-- Output of `json.dump(v, f, indent=2, ensure_ascii=False)` at nesting
level `lvl`. -/
def dumpVal : Json → Nat → List Char
  | .null, _ => ['n', 'u', 'l', 'l']
  | .bool true, _ => ['t', 'r', 'u', 'e']
  | .bool false, _ => ['f', 'a', 'l', 's', 'e']
  | .num i, _ => intRepr i
  | .str s, _ => encodeString s
  | .arr [], _ => ['[', ']']
  | .arr (x :: xs), lvl =>
    '[' :: (nlIndent (lvl + 1) ++ dumpVal x (lvl + 1) ++ dumpArrRest xs (lvl + 1) ++
      nlIndent lvl ++ [']'])
  | .obj [], _ => ['\x7b', '\x7d']
  | .obj (m :: ms), lvl =>
    '\x7b' :: (nlIndent (lvl + 1) ++ dumpMember m (lvl + 1) ++ dumpObjRest ms (lvl + 1) ++
      nlIndent lvl ++ ['\x7d'])

/-- The remaining array items, each preceded by the separator `",\n" + indent`. -/
def dumpArrRest : List Json → Nat → List Char
  | [], _ => []
  | x :: xs, lvl => ',' :: (nlIndent lvl ++ dumpVal x lvl ++ dumpArrRest xs lvl)

/-- The remaining object members, each preceded by the separator `",\n" + indent`. -/
def dumpObjRest : List (String × Json) → Nat → List Char
  | [], _ => []
  | m :: ms, lvl => ',' :: (nlIndent lvl ++ dumpMember m lvl ++ dumpObjRest ms lvl)

/-- One object member: `"key": value` (key separator `": "`). -/
def dumpMember : String × Json → Nat → List Char
  | (k, v), lvl => encodeString k ++ (':' :: ' ' :: dumpVal v lvl)
end

/-- The full serialized document `json.dump(v, f, indent=2, ensure_ascii=False)`
writes (text-mode writing on Linux is byte-identity). -/
def pyDumps (v : Json) : String := ⟨dumpVal v 0⟩

/-! ## JSON parsing (`json.load`) -/

/-- JSON whitespace. -/
def isWsChar (c : Char) : Bool := c = ' ' || c = '\t' || c = '\n' || c = '\r'

/-- Skip leading JSON whitespace. -/
def skipWs : List Char → List Char
  | [] => []
  | c :: rest => if isWsChar c then skipWs rest else c :: rest

/-- Hexadecimal digit test (as in JSON `\uXXXX` escapes). -/
def isHexDig (c : Char) : Bool :=
  c.isDigit || ('a' ≤ c && c ≤ 'f') || ('A' ≤ c && c ≤ 'F')

/-- Value of a hexadecimal digit character. -/
def hexVal (c : Char) : Nat :=
  if c.isDigit then c.toNat - 48
  else if 'a' ≤ c then c.toNat - 87
  else c.toNat - 55

/-- Value of a decimal digit character. -/
def digitVal (c : Char) : Nat := c.toNat - 48

/-- Decode the value of a decimal digit string, most significant first. -/
def decodeDigits (l : List Char) : Nat :=
  l.foldl (fun a c => a * 10 + digitVal c) 0

/-- Parse the body of a JSON string literal (after the opening quote),
decoding escapes, up to and including the closing quote.  Returns the
decoded characters and the remaining input. -/
def parseStrBody : List Char → Option (List Char × List Char)
  | [] => none
  | c :: rest =>
    if c = '"' then some ([], rest)
    else if c = '\\' then
      match rest with
      | [] => none
      | e :: rest2 =>
        if e = '"' then (parseStrBody rest2).map (fun p => ('"' :: p.1, p.2))
        else if e = '\\' then (parseStrBody rest2).map (fun p => ('\\' :: p.1, p.2))
        else if e = '/' then (parseStrBody rest2).map (fun p => ('/' :: p.1, p.2))
        else if e = 'n' then (parseStrBody rest2).map (fun p => ('\n' :: p.1, p.2))
        else if e = 'r' then (parseStrBody rest2).map (fun p => ('\r' :: p.1, p.2))
        else if e = 't' then (parseStrBody rest2).map (fun p => ('\t' :: p.1, p.2))
        else if e = 'b' then (parseStrBody rest2).map (fun p => ('\x08' :: p.1, p.2))
        else if e = 'f' then (parseStrBody rest2).map (fun p => ('\x0c' :: p.1, p.2))
        else if e = 'u' then
          match rest2 with
          | d1 :: d2 :: d3 :: d4 :: rest3 =>
            if isHexDig d1 && isHexDig d2 && isHexDig d3 && isHexDig d4 then
              (parseStrBody rest3).map (fun p =>
                (Char.ofNat (hexVal d1 * 4096 + hexVal d2 * 256 + hexVal d3 * 16 + hexVal d4)
                  :: p.1, p.2))
            else none
          | _ => none
        else none
    else (parseStrBody rest).map (fun p => (c :: p.1, p.2))

/-- Parse a JSON integer literal: optional minus sign, then a non-empty
run of decimal digits taken greedily. -/
def parseNum : List Char → Option (Json × List Char)
  | [] => none
  | c :: rest =>
    if c = '-' then
      let ds := rest.takeWhile Char.isDigit
      if ds.isEmpty then none
      else some (.num (-(decodeDigits ds : Int)), rest.dropWhile Char.isDigit)
    else
      let ds := (c :: rest).takeWhile Char.isDigit
      if ds.isEmpty then none
      else some (.num ((decodeDigits ds : Int)), (c :: rest).dropWhile Char.isDigit)

mutual
/-- Fuelled recursive-descent parser for a JSON value (model of
`json.load`; each recursive step consumes at least one input character, so
`input length + 1` fuel always suffices). -/
def parseVal : Nat → List Char → Option (Json × List Char)
  | 0, _ => none
  | fuel+1, cs =>
    match skipWs cs with
    | [] => none
    | c :: rest =>
      if c = '"' then (parseStrBody rest).map (fun p => (.str ⟨p.1⟩, p.2))
      else if c = '[' then
        match skipWs rest with
        | [] => (parseArrItems fuel rest).map (fun p => (.arr p.1, p.2))
        | d :: r2 =>
          if d = ']' then some (.arr [], r2)
          else (parseArrItems fuel rest).map (fun p => (.arr p.1, p.2))
      else if c = '\x7b' then
        match skipWs rest with
        | [] => (parseObjItems fuel rest).map (fun p => (.obj p.1, p.2))
        | d :: r2 =>
          if d = '\x7d' then some (.obj [], r2)
          else (parseObjItems fuel rest).map (fun p => (.obj p.1, p.2))
      else if c = 't' then
        match rest with
        | r1 :: r2 :: r3 :: rest2 =>
          if r1 = 'r' ∧ r2 = 'u' ∧ r3 = 'e' then some (.bool true, rest2) else none
        | _ => none
      else if c = 'f' then
        match rest with
        | r1 :: r2 :: r3 :: r4 :: rest2 =>
          if r1 = 'a' ∧ r2 = 'l' ∧ r3 = 's' ∧ r4 = 'e' then some (.bool false, rest2) else none
        | _ => none
      else if c = 'n' then
        match rest with
        | r1 :: r2 :: r3 :: rest2 =>
          if r1 = 'u' ∧ r2 = 'l' ∧ r3 = 'l' then some (.null, rest2) else none
        | _ => none
      else if c = '-' ∨ c.isDigit then parseNum (c :: rest)
      else none

/-- Parse one or more comma-separated array items followed by `]`. -/
def parseArrItems : Nat → List Char → Option (List Json × List Char)
  | 0, _ => none
  | fuel+1, cs =>
    match parseVal fuel cs with
    | none => none
    | some (v, r) =>
      match skipWs r with
      | [] => none
      | c :: r2 =>
        if c = ',' then (parseArrItems fuel r2).map (fun p => (v :: p.1, p.2))
        else if c = ']' then some ([v], r2)
        else none

/-- Parse one or more comma-separated `"key": value` members followed by
a closing brace. -/
def parseObjItems : Nat → List Char → Option (List (String × Json) × List Char)
  | 0, _ => none
  | fuel+1, cs =>
    match skipWs cs with
    | [] => none
    | c :: rest =>
      if c = '"' then
        match parseStrBody rest with
        | none => none
        | some (k, r) =>
          match skipWs r with
          | [] => none
          | c2 :: r2 =>
            if c2 = ':' then
              match parseVal fuel r2 with
              | none => none
              | some (v, r3) =>
                match skipWs r3 with
                | [] => none
                | c3 :: r4 =>
                  if c3 = ',' then (parseObjItems fuel r4).map (fun p => ((⟨k⟩, v) :: p.1, p.2))
                  else if c3 = '\x7d' then some ([(⟨k⟩, v)], r4)
                  else none
            else none
      else none
end

/-- Model of `json.load` on full file content: parse one JSON value and
require only whitespace after it. -/
def parseJson (s : String) : Option Json :=
  match parseVal (s.data.length + 1) s.data with
  | some (j, rest) => if (skipWs rest).isEmpty then some j else none
  | none => none

/-! ## Fallible I/O environment and the Content Sampler -/

/-- Which of the I/O operations the script performs succeed.  Each field
models one failure point of the Python code:

* `srcOpenOk`: `open(source, 'r')` (and, for the streaming JSONL read,
  delivery of the very first character) succeeds;
* `textReadFail = some k`: text-mode reading/decoding of the source fails
  (e.g. `UnicodeDecodeError`, I/O error) once line index `k` is reached;
  `none` means the whole text read succeeds.  For a whole-file read
  (`json.load`), any `some _` is a failure;
* `srcBinOk`: binary reading of the source (`shutil.copy2`) succeeds;
* `destOk`: opening/writing the destination file succeeds;
* `mkdirOk`: `dest_dir.mkdir(parents=True, exist_ok=True)` succeeds. -/
structure IOEnv where
  srcOpenOk : Bool
  textReadFail : Option Nat
  srcBinOk : Bool
  destOk : Bool
  mkdirOk : Bool

/-- The environment in which every I/O operation succeeds. -/
def allOk : IOEnv :=
  { srcOpenOk := true, textReadFail := none, srcBinOk := true, destOk := true, mkdirOk := true }

/-- The content the successful JSONL filtering path writes: the first
`max_lines` lines delivered by Python text-mode iteration, concatenated. -/
def jsonlFiltered (src : String) (max_lines : Nat) : String :=
  ⟨((pyLines src).take max_lines).flatten⟩

/-- `filter_jsonl_file(source, dest, max_lines)`: stream at most
`max_lines` lines from the source into the freshly truncated destination.
`dest0` is the destination file's prior state; the result is the success
flag returned by the Python function together with the destination state
it leaves behind.  Note that the `for i, line in enumerate(src_f)` loop
reads line `i` before testing `i >= max_lines`, so a read failure at line
index `k` aborts the copy whenever `k ≤ max_lines` (and `k` is an actual
line position), after lines `0..k-1` were already written. -/
def filter_jsonl_file (env : IOEnv) (src : String) (max_lines : Nat) (dest0 : Option String) :
    Bool × Option String :=
  if env.srcOpenOk = false then (false, dest0)
  else if env.destOk = false then (false, dest0)
  else
    match env.textReadFail with
    | some k =>
      if k < (pyLines src).length ∧ k ≤ max_lines then
        (false, some ⟨((pyLines src).take k).flatten⟩)
      else (true, some (jsonlFiltered src max_lines))
    | none => (true, some (jsonlFiltered src max_lines))

/-- `filter_json_file(source, dest, max_lines)`: parse the whole source
document; if it is an array keep only the first `max_lines` items; then
re-serialize with `indent=2, ensure_ascii=False`.  Any exception (read
failure, parse failure, destination write failure) yields `False`, and the
destination is touched only after parsing succeeded. -/
def filter_json_file (env : IOEnv) (src : String) (max_lines : Nat) (dest0 : Option String) :
    Bool × Option String :=
  if env.srcOpenOk = false then (false, dest0)
  else if env.textReadFail ≠ none then (false, dest0)
  else
    match parseJson src with
    | none => (false, dest0)
    | some data =>
      match data with
      | .arr xs =>
        if env.destOk = false then (false, dest0)
        else (true, some (pyDumps (.arr (xs.take max_lines))))
      | _ =>
        if env.destOk = false then (false, dest0)
        else (true, some (pyDumps data))

/-- `shutil.copy2(source, dest)`: byte-for-byte copy (plus metadata); it
truncates and rewrites the destination, so the result does not depend on
the destination's prior content.  Raises if the source cannot be read in
binary mode or the destination cannot be written. -/
def copy2 (env : IOEnv) (src : String) (dest0 : Option String) : Bool × Option String :=
  if env.srcBinOk && env.destOk then (true, some src) else (false, dest0)

/-- `pathlib.PurePath.suffix` of a file name: the part from the last dot,
unless the dot is the first or last character. -/
def pathSuffix (name : String) : String :=
  match name.data.reverse.findIdx? (· = '.') with
  | none => ""
  | some j =>
    let i := name.data.length - 1 - j
    if 0 < i ∧ i < name.data.length - 1 then ⟨name.data.drop i⟩ else ""

/-- ASCII lower-casing, as `str.lower()` acts on the ASCII-only
extensions the dispatch compares against. -/
def charLower (c : Char) : Char :=
  if 'A' ≤ c ∧ c ≤ 'Z' then Char.ofNat (c.toNat + 32) else c

/-- `name.lower()` (ASCII range). -/
def pyLower (s : String) : String := ⟨s.data.map charLower⟩

/-- `copy_example_file(source, dest_dir, example_name)`: the Content
Sampler's entry point.  `dest_dir.mkdir(...)` runs before the `try`
block, so its failure escapes as an exception (`Except.error`); every
other failure is caught inside the function and reported through the
returned flag.  The row limit is the hard-coded `max_lines=20` of the
source at both call sites. -/
def copy_example_file (env : IOEnv) (srcName src : String) (dest0 : Option String) :
    Except Unit (Bool × Option String) :=
  if env.mkdirOk = false then .error ()
  else
    let suffix := pyLower (pathSuffix srcName)
    if suffix = ".jsonl" then
      match filter_jsonl_file env src 20 dest0 with
      | (true, d) => .ok (true, d)
      | (false, d1) =>
        match copy2 env src d1 with
        | (true, d2) => .ok (true, d2)
        | (false, d2) => .ok (false, d2)
    else if suffix = ".json" then
      match filter_json_file env src 20 dest0 with
      | (true, d) => .ok (true, d)
      | (false, d1) =>
        match copy2 env src d1 with
        | (true, d2) => .ok (true, d2)
        | (false, d2) => .ok (false, d2)
    else
      match copy2 env src dest0 with
      | (true, d) => .ok (true, d)
      | (false, d) => .ok (false, d)

/-- Modelled from the spec: the Content Sampler as §4.2 describes it,
with the row limit a caller-supplied parameter `rowLimit` instead of the
hard-coded 20 ("the Sampler itself is parameterized and must not
hard-code this value").  Identical to `copy_example_file` except that
both filter invocations receive `rowLimit`. -/
def copy_example_file_spec (rowLimit : Nat) (env : IOEnv) (srcName src : String)
    (dest0 : Option String) : Except Unit (Bool × Option String) :=
  if env.mkdirOk = false then .error ()
  else
    let suffix := pyLower (pathSuffix srcName)
    if suffix = ".jsonl" then
      match filter_jsonl_file env src rowLimit dest0 with
      | (true, d) => .ok (true, d)
      | (false, d1) =>
        match copy2 env src d1 with
        | (true, d2) => .ok (true, d2)
        | (false, d2) => .ok (false, d2)
    else if suffix = ".json" then
      match filter_json_file env src rowLimit dest0 with
      | (true, d) => .ok (true, d)
      | (false, d1) =>
        match copy2 env src d1 with
        | (true, d2) => .ok (true, d2)
        | (false, d2) => .ok (false, d2)
    else
      match copy2 env src dest0 with
      | (true, d) => .ok (true, d)
      | (false, d) => .ok (false, d)

/-! ## The File Locator -/

/-- One filesystem entry below a provider's root directory, as seen by one
directory snapshot: its path components relative to the root, the byte
size `stat()` reports, and (for files the sampler may read) its content. -/
structure FSEntry where
  path : List String
  size : Nat
  content : String
  deriving DecidableEq

/-- A snapshot of one provider's data directory tree. -/
structure Snapshot where
  rootExists : Bool
  entries : List FSEntry

/-- The file name of an entry: its last path component. -/
def entryName (e : FSEntry) : String := e.path.getLastD ""

/-- Shell-style glob matching on one name (`fnmatch`-style `*` and `?`;
the character classes `fnmatch` would also support are not used by any
registry pattern).  Fuelled: every recursive call shortens the pattern or
the name, so `|pattern| + |name| + 1` fuel suffices. -/
def globMatchAux : Nat → List Char → List Char → Bool
  | 0, _, _ => false
  | fuel+1, p, s =>
    match p, s with
    | [], [] => true
    | [], _ :: _ => false
    | '*' :: ps, [] => globMatchAux fuel ps []
    | '*' :: ps, c :: ss => globMatchAux fuel ps (c :: ss) || globMatchAux fuel ('*' :: ps) ss
    | '?' :: _, [] => false
    | '?' :: ps, _ :: ss => globMatchAux fuel ps ss
    | pc :: ps, sc :: ss => pc == sc && globMatchAux fuel ps ss
    | _ :: _, [] => false

/-- `fnmatch`-style match of a glob pattern against a file name, as
`Path.glob` with the recursive `**` prefix applies it to the final component of every
entry at any depth below the root. -/
def globMatch (pattern name : String) : Bool :=
  globMatchAux (pattern.data.length + name.data.length + 1) pattern.data name.data

/-- The comparison `all_matches.sort(key=lambda p: p.stat().st_size,
reverse=True)` sorts by: larger-or-equal size first.  CPython's sort is
stable, so among equal sizes the earlier element of the accumulated match
list stays first; `List.insertionSort` with this relation computes exactly
that stable descending order. -/
def bySizeDesc (a b : FSEntry) : Prop := b.size ≤ a.size

instance : DecidableRel bySizeDesc := fun a b => Nat.decLe b.size a.size

/-- `find_largest_matching_file(directory, patterns)`: `None` if the root
is missing; otherwise accumulate, pattern by pattern, every entry whose
name matches (recursively, at any depth), and return the head of the
size-descending stable sort — the largest match — or `None` if there are
no matches. -/
def find_largest_matching_file (snap : Snapshot) (patterns : List String) : Option FSEntry :=
  if snap.rootExists = false then none
  else
    let all_matches :=
      patterns.flatMap (fun pat => snap.entries.filter (fun e => globMatch pat (entryName e)))
    match all_matches.insertionSort bySizeDesc with
    | [] => none
    | e :: _ => some e

/-! ## The Provider Registry and the Orchestrator (`main`) -/

/-- One entry of the `PROVIDERS` table. -/
structure ProviderCfg where
  id : String
  name : String
  default_dir : String
  patterns : List String
  example_name : String

/-- The provider registry, in insertion order. -/
def PROVIDERS : List ProviderCfg :=
  [ { id := "claude-code", name := "Claude Code", default_dir := "~/.claude/projects",
      patterns := ["*.jsonl", "*claude-code*.json*"], example_name := "claude.jsonl" },
    { id := "gemini", name := "Gemini CLI", default_dir := "~/.gemini/tmp",
      patterns := ["session-*.json"], example_name := "gemini.json" },
    { id := "codex", name := "Codex", default_dir := "~/.codex/sessions",
      patterns := ["*.jsonl"], example_name := "codex.jsonl" },
    { id := "cursor", name := "Cursor Agent", default_dir := "~/.cursor/chats",
      patterns := ["store.db", "*cursor*.db"], example_name := "cursor.db" } ]

/-- The per-provider slice of the world `main` runs against: the snapshot
of the provider's resolved default directory, the I/O behaviour of the
sampling step, and the prior state of the provider's destination file. -/
structure ProviderEnv where
  snap : Snapshot
  io : IOEnv
  dest0 : Option String

/-- One iteration of `main`'s provider loop, reduced to the data that
determines the outcome (the printing and destination-name splicing do not
affect it): skip if the directory is missing, locate, then sample.
`Except.error` models an exception escaping the iteration. -/
def runProvider (cfg : ProviderCfg) (penv : ProviderEnv) : Except Unit Bool :=
  if penv.snap.rootExists = false then .ok false
  else
    match find_largest_matching_file penv.snap cfg.patterns with
    | none => .ok false
    | some e => (copy_example_file penv.io (entryName e) e.content penv.dest0).map Prod.fst

/-- The provider loop of `main`: providers processed in registry order,
`success_count` accumulated; an exception escaping one iteration aborts
the whole loop. -/
def runProviders (E : ProviderCfg → ProviderEnv) : List ProviderCfg → Except Unit Nat
  | [] => .ok 0
  | cfg :: rest =>
    match runProvider cfg (E cfg) with
    | .error e => .error e
    | .ok b =>
      match runProviders E rest with
      | .error e => .error e
      | .ok cnt => .ok ((if b then 1 else 0) + cnt)

/-- `main()`: run every provider, then
`return 0 if success_count == total_count else 1`. -/
def mainRun (E : ProviderCfg → ProviderEnv) : Except Unit Nat :=
  match runProviders E PROVIDERS with
  | .error e => .error e
  | .ok success_count => .ok (if success_count = PROVIDERS.length then 0 else 1)

/-- The process exit status: `main`'s return value is passed to `exit`;
if an exception propagates out of `main`, CPython prints a traceback and
exits with status 1. -/
def processExit (E : ProviderCfg → ProviderEnv) : Nat :=
  match mainRun E with
  | .ok r => r
  | .error _ => 1

/-! ## Claim C9: idempotence of the sample operation -/

/-- The destination file's state after one run of the sample operation
(an escaping exception leaves the destination untouched, since
`dest_dir.mkdir` runs before anything is written). -/
def sampleDest (env : IOEnv) (srcName src : String) (dest0 : Option String) : Option String :=
  match copy_example_file env srcName src dest0 with
  | .error _ => dest0
  | .ok (_, d) => d

/-! ## Claim C6: the File Locator's contract -/

instance : IsTotal FSEntry bySizeDesc := ⟨fun a b => Nat.le_total b.size a.size⟩

instance : IsTrans FSEntry bySizeDesc := ⟨fun _ _ _ hab hbc => le_trans hbc hab⟩

/-- The accumulated match list `all_matches` of
`find_largest_matching_file` (the union, in pattern order, of the entries
whose name matches each pattern). -/
def locatorMatches (snap : Snapshot) (patterns : List String) : List FSEntry :=
  patterns.flatMap (fun pat => snap.entries.filter (fun e => globMatch pat (entryName e)))

/-! ## Claims C7 and C8: the Orchestrator's exit status and propagation -/

/-- Did this provider iteration complete without an escaping exception? -/
def isOkE : Except Unit Bool → Bool
  | .ok _ => true
  | .error _ => false

/-- Did this provider iteration report a successfully sampled artifact? -/
def okTrue : Except Unit Bool → Bool
  | .ok true => true
  | _ => false

/-- An environment in which the first provider's directory exists and a
file is located, but creating the destination directory fails. -/
def c8_env : ProviderCfg → ProviderEnv := fun _ =>
  { snap := { rootExists := true,
              entries := [{ path := ["a.jsonl"], size := 1, content := "x" }] },
    io := { srcOpenOk := true, textReadFail := none, srcBinOk := true,
            destOk := true, mkdirOk := false },
    dest0 := none }

/-- An environment whose text-mode read fails at line index 1 (e.g. a
`UnicodeDecodeError` inside the second line), after one line was already
written to the destination. -/
def c10_env : IOEnv :=
  { srcOpenOk := true, textReadFail := some 1, srcBinOk := true,
    destOk := true, mkdirOk := true }

/-! ## Round trip: the serializer's output parses back to the document -/

/-- The next input character (if any) does not satisfy `p`. -/
def headNot (p : Char → Bool) : List Char → Prop
  | [] => True
  | c :: _ => p c = false

mutual
/-- Parser-fuel cost of a document (each node and list step costs one). -/
def sizeV : Json → Nat
  | .arr xs => 1 + sizeItems xs
  | .obj ms => 1 + sizeMems ms
  | _ => 1

/-- Parser-fuel cost of an array's element list. -/
def sizeItems : List Json → Nat
  | [] => 1
  | x :: xs => 1 + sizeV x + sizeItems xs

/-- Parser-fuel cost of an object's member list. -/
def sizeMems : List (String × Json) → Nat
  | [] => 1
  | (_, v) :: ms => 1 + sizeV v + sizeMems ms
end


theorem pyUniv_nil : pyUniv [] = [] := rfl

theorem pyUniv_cons (c : Char) (rest : List Char) (h : c ≠ '\r') :
    pyUniv (c :: rest) = c :: pyUniv rest := by
  cases rest with
  | nil => simp [pyUniv, if_neg h]
  | cons d rest2 => simp [pyUniv, if_neg h]

theorem splitAfterLF_cons_nl (rest : List Char) :
    splitAfterLF ('\n' :: rest) = ['\n'] :: splitAfterLF rest := by
  simp [splitAfterLF]

theorem splitAfterLF_cons_other (c : Char) (rest : List Char) (h : c ≠ '\n') :
    splitAfterLF (c :: rest) =
      match splitAfterLF rest with
      | [] => [[c]]
      | l :: ls => (c :: l) :: ls := by
  simp [splitAfterLF, if_neg h]

theorem rawLines_cons_nl (rest : List Char) :
    rawLines ('\n' :: rest) = ['\n'] :: rawLines rest := by
  cases rest with
  | nil => rfl
  | cons d rest2 =>
    show (if ('\n' : Char) = '\r' then _ else if ('\n' : Char) = '\n' then _ else _) = _
    rw [if_neg (by decide), if_pos rfl]

theorem rawLines_cons_other (c : Char) (rest : List Char) (h1 : c ≠ '\r') (h2 : c ≠ '\n') :
    rawLines (c :: rest) =
      match rawLines rest with
      | [] => [[c]]
      | l :: ls => (c :: l) :: ls := by
  cases rest with
  | nil => simp [rawLines, if_neg h1, if_neg h2]
  | cons d rest2 =>
    show (if c = '\r' then _ else if c = '\n' then _ else _) = _
    rw [if_neg h1, if_neg h2]

theorem splitAfterLF_flatten : ∀ l : List Char, (splitAfterLF l).flatten = l := by
  intro l
  induction l with
  | nil => rfl
  | cons c rest ih =>
    by_cases h : c = '\n'
    · subst h; simp [splitAfterLF, ih]
    · simp only [splitAfterLF, if_neg h]
      cases hr : splitAfterLF rest with
      | nil => simp_all
      | cons x xs => rw [hr] at ih; simpa using ih

/-- On carriage-return-free content, universal-newlines translation is the
identity. -/
theorem pyUniv_of_no_cr : ∀ l : List Char, (∀ c ∈ l, c ≠ '\r') → pyUniv l = l := by
  intro l
  induction l with
  | nil => intro _; rfl
  | cons c rest ih =>
    intro h
    have hc : c ≠ '\r' := h c (by simp)
    have hrest : ∀ x ∈ rest, x ≠ '\r' := fun x hx => h x (by simp [hx])
    rw [pyUniv_cons c rest hc, ih hrest]

/-- On carriage-return-free content, the claim's raw-line decomposition and
Python's line iteration coincide. -/
theorem rawLines_of_no_cr : ∀ l : List Char, (∀ c ∈ l, c ≠ '\r') →
    rawLines l = splitAfterLF l := by
  intro l
  induction l with
  | nil => intro _; rfl
  | cons c rest ih =>
    intro h
    have hc : c ≠ '\r' := h c (by simp)
    have hrest : ∀ x ∈ rest, x ≠ '\r' := fun x hx => h x (by simp [hx])
    by_cases hn : c = '\n'
    · subst hn
      rw [rawLines_cons_nl, splitAfterLF_cons_nl, ih hrest]
    · rw [rawLines_cons_other c rest hc hn, splitAfterLF_cons_other c rest hn, ih hrest]

example : parseJson "null" = some .null := rfl
example : parseJson " [1, 2]  " = some (.arr [.num 1, .num 2]) := rfl
example : parseJson "[-3, \"a\x5cnb\", true, \x7b\"k\": []\x7d]" =
    some (.arr [.num (-3), .str "a\nb", .bool true, .obj [("k", .arr [])]]) := rfl
example : parseJson "\x7b\"a\": 1\x7d" = some (.obj [("a", .num 1)]) := rfl
example : parseJson "not json" = none := rfl
example : parseJson "[1, 2" = none := rfl
example : pyDumps (.arr [.num 1, .arr [.num 2]]) = "[\n  1,\n  [\n    2\n  ]\n]" := rfl
example : pyDumps (.obj [("a", .num 1)]) = "\x7b\n  \"a\": 1\n\x7d" := rfl
example : parseJson (pyDumps (.arr [.num 1, .arr [.num 2], .str "é"])) =
    some (.arr [.num 1, .arr [.num 2], .str "é"]) := rfl

example : pathSuffix "claude.JSONL" = ".JSONL" := rfl
example : pathSuffix "a.tar.gz" = ".gz" := rfl
example : pathSuffix "store" = "" := rfl
example : pathSuffix ".bashrc" = "" := rfl

example : globMatch "*.jsonl" "session-1.jsonl" = true := rfl
example : globMatch "*.jsonl" "session-1.json" = false := rfl
example : globMatch "*claude-code*.json*" "my-claude-code-x.jsonl" = true := rfl
example : globMatch "store.db" "store.db" = true := rfl

/-! ## Claim C1: the row limit at the Sampler's entry point -/

/-- C1 counterexample: the Sampler's entry point offers no row-limit
parameter, and its behaviour does not match the spec's parameterized
Sampler at a caller-supplied limit of 3: on a 4-line JSONL source the
code keeps all 4 lines (its hard-coded limit being 20), while a Sampler
honouring the caller's limit 3 would keep 3. -/
theorem c1_counterexample :
    copy_example_file allOk "a.jsonl" "1\n2\n3\n4\n" none = .ok (true, some "1\n2\n3\n4\n") ∧
    copy_example_file_spec 3 allOk "a.jsonl" "1\n2\n3\n4\n" none = .ok (true, some "1\n2\n3\n") ∧
    ("1\n2\n3\n4\n" : String) ≠ "1\n2\n3\n" :=
  ⟨by rfl, by rfl, by decide⟩

/-- C1 amended: the filter helpers are parameterized in `max_lines`, but
`copy_example_file` takes no row-limit argument and passes the hard-coded
value 20 to both the JSONL and the JSON filtering path: it coincides with
the spec's parameterized Sampler exactly at `rowLimit = 20`. -/
theorem c1_amended (env : IOEnv) (srcName src : String) (dest0 : Option String) :
    copy_example_file env srcName src dest0 =
      copy_example_file_spec 20 env srcName src dest0 := rfl

/-- C9: sampling is idempotent — running the sample operation a second
time with the same source, destination and environment leaves the
destination bytes exactly as the first run did. -/
theorem c9_idempotent (env : IOEnv) (srcName src : String) (d0 : Option String) :
    sampleDest env srcName src (sampleDest env srcName src d0) =
      sampleDest env srcName src d0 := by
  obtain ⟨so, trf, sb, dk, mk⟩ := env
  cases mk with
  | false => simp [sampleDest, copy_example_file]
  | true =>
    by_cases h1 : pyLower (pathSuffix srcName) = ".jsonl"
    · cases so with
      | false =>
        cases sb <;> cases dk <;>
          simp [sampleDest, copy_example_file, h1, filter_jsonl_file, copy2]
      | true =>
        cases dk with
        | false =>
          cases sb <;>
            simp [sampleDest, copy_example_file, h1, filter_jsonl_file, copy2]
        | true =>
          cases trf with
          | none =>
            cases sb <;>
              simp [sampleDest, copy_example_file, h1, filter_jsonl_file, copy2]
          | some k =>
            by_cases hk : k < (pyLines src).length ∧ k ≤ 20
            · cases sb <;>
                simp [sampleDest, copy_example_file, h1, filter_jsonl_file, copy2, hk]
            · cases sb <;>
                simp [sampleDest, copy_example_file, h1, filter_jsonl_file, copy2, hk]
    · by_cases h2 : pyLower (pathSuffix srcName) = ".json"
      · cases so with
        | false =>
          cases sb <;> cases dk <;>
            simp [sampleDest, copy_example_file, h1, h2, filter_json_file, copy2]
        | true =>
          cases trf with
          | some k =>
            cases sb <;> cases dk <;>
              simp [sampleDest, copy_example_file, h1, h2, filter_json_file, copy2]
          | none =>
            cases hp : parseJson src with
            | none =>
              cases sb <;> cases dk <;>
                simp [sampleDest, copy_example_file, h1, h2, filter_json_file, copy2, hp]
            | some data =>
              cases data <;> cases sb <;> cases dk <;>
                simp [sampleDest, copy_example_file, h1, h2, filter_json_file, copy2, hp]
      · cases sb <;> cases dk <;>
          simp [sampleDest, copy_example_file, h1, h2, copy2]

/-- The head of the stable size-descending sort of a non-empty list is a
member of maximal size. -/
theorem sort_head_max (l : List FSEntry) (e : FSEntry) (rest : List FSEntry)
    (hsort : l.insertionSort bySizeDesc = e :: rest) :
    e ∈ l ∧ ∀ y ∈ l, y.size ≤ e.size := by
  have hperm := (List.perm_insertionSort bySizeDesc l).symm
  rw [hsort] at hperm
  have hmem : e ∈ l := hperm.symm.subset (by simp)
  refine ⟨hmem, fun y hy => ?_⟩
  have hy2 : y ∈ e :: rest := hperm.subset hy
  rcases hy2 with _ | hy3
  · exact le_rfl
  · have hsorted := List.sorted_insertionSort bySizeDesc l
    rw [hsort] at hsorted
    exact List.rel_of_sorted_cons hsorted y (by assumption)

/-- C6: with a non-empty pattern list, the Locator returns `NotFound`
(`none`, never an error) exactly when the root directory is missing or no
entry at any depth matches any pattern; otherwise it returns one candidate
of maximal byte size among the union of all patterns' matches.  It is a
pure function of the snapshot, so repeated calls on the same snapshot
return candidates of equal size. -/
theorem c6_locator (snap : Snapshot) (patterns : List String) (hp : patterns ≠ []) :
    (snap.rootExists = false ∨ locatorMatches snap patterns = [] →
      find_largest_matching_file snap patterns = none) ∧
    (snap.rootExists = true → locatorMatches snap patterns ≠ [] →
      ∃ e, find_largest_matching_file snap patterns = some e ∧
        e ∈ locatorMatches snap patterns ∧
        ∀ y ∈ locatorMatches snap patterns, y.size ≤ e.size) ∧
    (∀ e1 e2, find_largest_matching_file snap patterns = some e1 →
      find_largest_matching_file snap patterns = some e2 → e1.size = e2.size) := by
  refine ⟨?_, ?_, ?_⟩
  · rintro (hroot | hnone)
    · simp [find_largest_matching_file, hroot]
    · cases hroot : snap.rootExists with
      | false => simp [find_largest_matching_file, hroot]
      | true =>
        have : locatorMatches snap patterns = [] := hnone
        simp only [find_largest_matching_file, hroot]
        simp only [locatorMatches] at this
        rw [this]
        rfl
  · intro hroot hne
    cases hsort : (locatorMatches snap patterns).insertionSort bySizeDesc with
    | nil =>
      exact absurd ((List.perm_insertionSort bySizeDesc _).symm.trans
        (by rw [hsort])).eq_nil hne
    | cons e rest =>
      obtain ⟨hmem, hmax⟩ := sort_head_max _ e rest hsort
      refine ⟨e, ?_, hmem, hmax⟩
      simp only [find_largest_matching_file, hroot]
      simp only [locatorMatches] at hsort
      rw [hsort]
      simp
  · intro e1 e2 h1 h2
    rw [h1] at h2
    injection h2 with h
    rw [h]

/-- C6 witness: the spec's own scenario — `a.jsonl` (30 bytes worth of
lines) and `b.jsonl` (5) under an existing root; the Locator must return
a maximal-size candidate. -/
theorem c6_witness :
    ∃ e, find_largest_matching_file
        { rootExists := true,
          entries := [{ path := ["a.jsonl"], size := 30, content := "a" },
                      { path := ["b.jsonl"], size := 5, content := "b" }] }
        ["*.jsonl"] = some e ∧
      e ∈ locatorMatches
        { rootExists := true,
          entries := [{ path := ["a.jsonl"], size := 30, content := "a" },
                      { path := ["b.jsonl"], size := 5, content := "b" }] }
        ["*.jsonl"] ∧
      ∀ y ∈ locatorMatches
        { rootExists := true,
          entries := [{ path := ["a.jsonl"], size := 30, content := "a" },
                      { path := ["b.jsonl"], size := 5, content := "b" }] }
        ["*.jsonl"], y.size ≤ e.size :=
  (c6_locator _ _ (by decide)).2.1 rfl (by decide)

theorem okTrue_iff (x : Except Unit Bool) : okTrue x = true ↔ x = .ok true := by
  cases x with
  | error e => simp [okTrue]
  | ok b => cases b <;> simp [okTrue]

/-- If no iteration raises, the provider loop returns the number of
successful providers. -/
theorem runProviders_count (E : ProviderCfg → ProviderEnv) :
    ∀ l : List ProviderCfg, (∀ cfg ∈ l, isOkE (runProvider cfg (E cfg)) = true) →
      runProviders E l = .ok (l.countP (fun cfg => okTrue (runProvider cfg (E cfg)))) := by
  intro l
  induction l with
  | nil => intro _; rfl
  | cons cfg rest ih =>
    intro h
    have hcfg := h cfg (by simp)
    have hrest : ∀ c ∈ rest, isOkE (runProvider c (E c)) = true :=
      fun c hc => h c (List.mem_cons_of_mem _ hc)
    cases hrun : runProvider cfg (E cfg) with
    | error e => rw [hrun] at hcfg; simp [isOkE] at hcfg
    | ok b =>
      simp only [runProviders, hrun, ih hrest, List.countP_cons]
      cases b <;> simp [okTrue] <;> omega

/-- If the provider loop completes, every iteration completed and the
count is the number of successful providers. -/
theorem runProviders_ok (E : ProviderCfg → ProviderEnv) :
    ∀ (l : List ProviderCfg) (c : Nat), runProviders E l = .ok c →
      (∀ cfg ∈ l, isOkE (runProvider cfg (E cfg)) = true) ∧
      c = l.countP (fun cfg => okTrue (runProvider cfg (E cfg))) := by
  intro l
  induction l with
  | nil =>
    intro c h
    refine ⟨by simp, ?_⟩
    simp only [runProviders] at h
    injection h with h
    simp [h.symm]
  | cons cfg rest ih =>
    intro c h
    cases hrun : runProvider cfg (E cfg) with
    | error e => simp [runProviders, hrun] at h
    | ok b =>
      simp only [runProviders, hrun] at h
      cases hrest : runProviders E rest with
      | error e => rw [hrest] at h; exact Except.noConfusion h
      | ok cnt =>
        rw [hrest] at h
        injection h with h
        obtain ⟨hall, hcnt⟩ := ih cnt hrest
        refine ⟨?_, ?_⟩
        · intro c2 hc2
          rcases List.mem_cons.mp hc2 with rfl | hmem
          · rw [hrun]; rfl
          · exact hall c2 hmem
        · rw [List.countP_cons, ← hcnt, ← h, hrun]
          cases b <;> simp [okTrue] <;> omega

/-- If the provider loop aborts, some iteration raised. -/
theorem runProviders_error (E : ProviderCfg → ProviderEnv) :
    ∀ l : List ProviderCfg, runProviders E l = .error () →
      ∃ cfg ∈ l, runProvider cfg (E cfg) = .error () := by
  intro l
  induction l with
  | nil => intro h; exact Except.noConfusion h
  | cons cfg rest ih =>
    intro h
    cases hrun : runProvider cfg (E cfg) with
    | error e => exact ⟨cfg, by simp, by rw [hrun]⟩
    | ok b =>
      simp only [runProviders, hrun] at h
      cases hrest : runProviders E rest with
      | error e =>
        obtain ⟨c, hc, hce⟩ := ih hrest
        exact ⟨c, List.mem_cons_of_mem _ hc, hce⟩
      | ok cnt => rw [hrest] at h; exact Except.noConfusion h

/-- C7: the process exit status is 0 iff every provider in the registry
produced a successfully sampled artifact, and it is always 0 or 1 — so
any provider's failure to locate or sample makes it 1.  (If an exception
escapes `main`, CPython's exit status is 1 as well, and then not every
provider succeeded.) -/
theorem c7_exit_status (E : ProviderCfg → ProviderEnv) :
    (processExit E = 0 ↔ ∀ cfg ∈ PROVIDERS, runProvider cfg (E cfg) = .ok true) ∧
    (processExit E = 0 ∨ processExit E = 1) := by
  constructor
  · constructor
    · intro h0
      cases hrp : runProviders E PROVIDERS with
      | error e => simp [processExit, mainRun, hrp] at h0
      | ok cnt =>
        obtain ⟨hall, hcnt⟩ := runProviders_ok E PROVIDERS cnt hrp
        simp only [processExit, mainRun, hrp] at h0
        by_cases hlen : cnt = PROVIDERS.length
        · intro cfg hcfg
          rw [← okTrue_iff]
          rw [hcnt] at hlen
          exact List.countP_eq_length.mp hlen cfg hcfg
        · simp [if_neg hlen] at h0
    · intro hall
      have hall2 : ∀ cfg ∈ PROVIDERS, isOkE (runProvider cfg (E cfg)) = true := by
        intro cfg hcfg
        rw [hall cfg hcfg]; rfl
      have hcp : PROVIDERS.countP (fun cfg => okTrue (runProvider cfg (E cfg))) =
          PROVIDERS.length :=
        List.countP_eq_length.mpr (fun cfg hcfg => (okTrue_iff _).mpr (hall cfg hcfg))
      simp [processExit, mainRun, runProviders_count E PROVIDERS hall2, hcp]
  · cases hrp : runProviders E PROVIDERS with
    | error e => right; simp [processExit, mainRun, hrp]
    | ok cnt =>
      by_cases hlen : cnt = PROVIDERS.length
      · left; simp [processExit, mainRun, hrp, hlen]
      · right; simp [processExit, mainRun, hrp, hlen]

/-- C8 counterexample: a filesystem state in which an error while
processing one provider *does* terminate the whole run —
`dest_dir.mkdir(parents=True, exist_ok=True)` runs before the `try`
block of `copy_example_file`, so its failure propagates out of `main`. -/
theorem c8_counterexample :
    mainRun c8_env = .error () ∧ ∀ r, mainRun c8_env ≠ .ok r := by
  have h : mainRun c8_env = .error () := rfl
  exact ⟨h, fun r hr => Except.noConfusion (h.symm.trans hr)⟩

/-- If destination-directory creation succeeds, the Sampler never raises:
every failure inside it is caught and reported through its return flag. -/
theorem copy_example_file_ok (env : IOEnv) (srcName src : String) (dest0 : Option String)
    (h : env.mkdirOk = true) : ∃ p, copy_example_file env srcName src dest0 = .ok p := by
  simp only [copy_example_file, h]
  split
  · simp_all
  · (repeat' split) <;> exact ⟨_, rfl⟩

/-- A provider iteration raises only when `mkdir` fails. -/
theorem runProvider_isOk (cfg : ProviderCfg) (penv : ProviderEnv)
    (h : penv.io.mkdirOk = true) : isOkE (runProvider cfg penv) = true := by
  simp only [runProvider]
  split
  · rfl
  · split
    · rfl
    · rename_i e _
      obtain ⟨p, hp⟩ := copy_example_file_ok penv.io (entryName e) e.content penv.dest0 h
      rw [hp]; rfl

/-- C8 amended: `dest_dir.mkdir` is the one operation outside the
Sampler's exception guard, so its failure aborts the run (see the
counterexample); in every filesystem state where destination-directory
creation succeeds, no locate or sample failure terminates the run —
`main` completes normally, with each provider's outcome recorded
independently in the success count that determines the exit status. -/
theorem c8_amended (E : ProviderCfg → ProviderEnv)
    (hmk : ∀ cfg ∈ PROVIDERS, (E cfg).io.mkdirOk = true) :
    mainRun E = .ok
      (if PROVIDERS.countP (fun cfg => okTrue (runProvider cfg (E cfg))) = PROVIDERS.length
       then 0 else 1) := by
  have hall : ∀ cfg ∈ PROVIDERS, isOkE (runProvider cfg (E cfg)) = true :=
    fun cfg hcfg => runProvider_isOk cfg (E cfg) (hmk cfg hcfg)
  simp [mainRun, runProviders_count E PROVIDERS hall]

/-- C8 witness: an environment (all provider directories missing, `mkdir`
fine) in which the run completes normally with exit value 1. -/
theorem c8_witness :
    mainRun (fun _ => { snap := { rootExists := false, entries := [] },
                        io := allOk, dest0 := none }) = .ok 1 := by
  rw [c8_amended _ (fun cfg _ => rfl)]
  rfl

/-! ## Claim C2: JSONL sampling -/

/-- C2 counterexample: text-mode reading translates `\r\n` to `\n`
(universal newlines) and Linux text-mode writing emits `\n`, so for a
CRLF-terminated source the copied lines are *not* byte-identical to the
source lines with their original terminators. -/
theorem c2_counterexample :
    filter_jsonl_file allOk "a\r\nb\r\n" 2 none = (true, some "a\nb\n") ∧
    (⟨((rawLines ("a\r\nb\r\n" : String).data).take 2).flatten⟩ : String) = "a\r\nb\r\n" ∧
    ("a\nb\n" : String) ≠ "a\r\nb\r\n" :=
  ⟨by rfl, by rfl, by decide⟩

/-- C2 amended: for every `.jsonl` source containing no carriage returns
(so the universal-newlines translation is the identity) and every limit
`L`, a failure-free filtering run writes exactly the concatenation of the
first `min(N, L)` source lines — byte-identical, in order, terminators
included — and that prefix has exactly `min(N, L)` lines.  (Sources using
`\r\n` or `\r` terminators get them normalized to `\n`, per the
counterexample.) -/
theorem c2_amended (env : IOEnv) (src : String) (L : Nat) (d0 : Option String)
    (hso : env.srcOpenOk = true) (hdk : env.destOk = true)
    (htr : env.textReadFail = none) (hcr : ∀ c ∈ src.data, c ≠ '\r') :
    filter_jsonl_file env src L d0 = (true, some ⟨((rawLines src.data).take L).flatten⟩) ∧
    ((rawLines src.data).take L).length = min (rawLines src.data).length L := by
  have hlines : pyLines src = rawLines src.data := by
    rw [pyLines, pyUniv_of_no_cr src.data hcr, rawLines_of_no_cr src.data hcr]
  constructor
  · simp [filter_jsonl_file, hso, hdk, htr, jsonlFiltered, hlines]
  · rw [List.length_take, Nat.min_comm]

/-- C2 witness: three LF-terminated lines, limit 2. -/
theorem c2_witness :
    filter_jsonl_file allOk "x\ny\nz\n" 2 none =
      (true, some ⟨((rawLines ("x\ny\nz\n" : String).data).take 2).flatten⟩) ∧
    (⟨((rawLines ("x\ny\nz\n" : String).data).take 2).flatten⟩ : String) = "x\ny\n" ∧
    ((rawLines ("x\ny\nz\n" : String).data).take 2).length =
      min (rawLines ("x\ny\nz\n" : String).data).length 2 := by
  have h := c2_amended allOk "x\ny\nz\n" 2 none rfl rfl rfl (by decide)
  exact ⟨h.1, by rfl, h.2⟩

/-! ## Claim C4: parse/read failures degrade to verbatim copy -/

/-- C4 counterexample: a source whose read fails *entirely* (it cannot be
opened even for the binary fallback copy, e.g. permission denied) makes
the sample operation report `succeeded=false` with nothing written, even
though the destination is perfectly writable — contradicting both "still
writes a destination byte-identical to the source and reports
succeeded=true" and "succeeded=false only when the destination cannot be
written". -/
theorem c4_counterexample :
    copy_example_file
      { srcOpenOk := false, textReadFail := none, srcBinOk := false,
        destOk := true, mkdirOk := true } "x.json" "x" none = .ok (false, none) ∧
    ((false, (none : Option String)) ≠ (true, some "x")) :=
  ⟨by rfl, by decide⟩

/-- If the fallback copy's two operations (binary source read,
destination write) succeed, the Sampler never reports failure: any `.ok`
result carries flag `true`. -/
theorem copy_flag_true (env : IOEnv) (srcName src : String) (d0 : Option String)
    (hsb : env.srcBinOk = true) (hdk : env.destOk = true) :
    ∀ b d, copy_example_file env srcName src d0 = .ok (b, d) → b = true := by
  intro b d h
  simp only [copy_example_file] at h
  split at h
  · exact Except.noConfusion h
  · split at h <;> [skip; split at h] <;> split at h <;> simp_all [copy2]

/-- C4 amended: when the format-aware filtering step fails (parse failure,
or a text-mode read/decode failure) but the source is still readable as
raw bytes and the destination writable, the sampler falls back to a
verbatim copy: it writes a destination byte-identical to the entire
source and reports `succeeded=true`.  `succeeded=false` is reported
exactly when the final fallback copy itself fails: destination unwritable
or source unreadable even in binary mode. -/
theorem c4_amended (env : IOEnv) (srcName src : String) (d0 : Option String) :
    ((pyLower (pathSuffix srcName) = ".jsonl" ∧ (filter_jsonl_file env src 20 d0).1 = false ∨
      pyLower (pathSuffix srcName) = ".json" ∧ (filter_json_file env src 20 d0).1 = false) →
      env.mkdirOk = true → env.srcBinOk = true → env.destOk = true →
      copy_example_file env srcName src d0 = .ok (true, some src)) ∧
    (∀ d, copy_example_file env srcName src d0 = .ok (false, d) →
      env.srcBinOk = false ∨ env.destOk = false) := by
  constructor
  · intro hfail hmk hsb hdk
    rcases hfail with ⟨hsx, hf⟩ | ⟨hsx, hf⟩
    · cases hfe : filter_jsonl_file env src 20 d0 with
      | mk b dd =>
        rw [hfe] at hf
        simp only at hf
        subst hf
        simp [copy_example_file, hmk, hsx, hfe, copy2, hsb, hdk]
    · cases hfe : filter_json_file env src 20 d0 with
      | mk b dd =>
        rw [hfe] at hf
        simp only at hf
        subst hf
        simp [copy_example_file, hmk, hsx, hfe, copy2, hsb, hdk]
  · intro d hd
    cases hsb : env.srcBinOk with
    | false => exact Or.inl rfl
    | true =>
      cases hdk : env.destOk with
      | false => exact Or.inr rfl
      | true =>
        exact absurd (copy_flag_true env srcName src d0 hsb hdk false d hd)
          (by decide)

/-- C4 witness: a syntactically broken `.json` source that reads fine but
fails to parse; the sample operation reproduces it verbatim and reports
success. -/
theorem c4_witness :
    copy_example_file allOk "broken.json" "not json" none = .ok (true, some "not json") :=
  (c4_amended allOk "broken.json" "not json" none).1 (Or.inr ⟨rfl, by rfl⟩) rfl rfl rfl

/-! ## Claim C10: successful outputs are never a filtered/fallback mixture -/

/-- C10: whenever the sample operation on a `.jsonl` source reports
success, the destination holds either exactly the filtered prefix or
exactly the entire source — never a mixture; the result is the same
whatever the destination previously contained; and whenever the
JSONL filtering step failed (possibly after writing some lines), the
fallback copy has completely overwritten the partial content with the
entire source bytes. -/
theorem c10_no_mixture (env : IOEnv) (srcName src : String) (d0 d0' : Option String)
    (d : Option String) (hsx : pyLower (pathSuffix srcName) = ".jsonl")
    (hok : copy_example_file env srcName src d0 = .ok (true, d)) :
    (d = some (jsonlFiltered src 20) ∨ d = some src) ∧
    copy_example_file env srcName src d0' = .ok (true, d) ∧
    ((filter_jsonl_file env src 20 d0).1 = false → d = some src) := by
  obtain ⟨so, trf, sb, dk, mk⟩ := env
  cases mk with
  | false => exact absurd hok (by simp [copy_example_file])
  | true =>
    cases so with
    | false =>
      cases sb <;> cases dk <;>
        simp_all [copy_example_file, filter_jsonl_file, copy2]
    | true =>
      cases dk with
      | false =>
        cases sb <;> simp_all [copy_example_file, filter_jsonl_file, copy2]
      | true =>
        cases trf with
        | none =>
          cases sb <;> simp_all [copy_example_file, filter_jsonl_file, copy2]
        | some k =>
          by_cases hk : k < (pyLines src).length ∧ k ≤ 20
          · cases sb <;>
              simp_all [copy_example_file, filter_jsonl_file, copy2, if_pos hk]
          · cases sb <;>
              simp_all [copy_example_file, filter_jsonl_file, copy2, if_neg hk]

/-- C10 witness: the filtering step fails mid-stream after writing one
line, and the destination nevertheless ends up byte-identical to the
whole source. -/
theorem c10_witness :
    ((some "a\nb\nc\n" : Option String) = some (jsonlFiltered "a\nb\nc\n" 20) ∨
      (some "a\nb\nc\n" : Option String) = some "a\nb\nc\n") ∧
    copy_example_file c10_env "a.jsonl" "a\nb\nc\n" (some "stale") = .ok (true, some "a\nb\nc\n") ∧
    ((filter_jsonl_file c10_env "a\nb\nc\n" 20 none).1 = false →
      (some "a\nb\nc\n" : Option String) = some "a\nb\nc\n") :=
  c10_no_mixture c10_env "a.jsonl" "a\nb\nc\n" none (some "stale") (some "a\nb\nc\n")
    rfl (by rfl)

theorem digitChar_spec : ∀ d, d < 10 → (digitChar d).isDigit = true ∧ digitVal (digitChar d) = d := by
  intro d hd
  interval_cases d <;> exact ⟨by decide, by decide⟩

theorem natDigitsAux_spec : ∀ fuel n, n < fuel →
    natDigitsAux fuel n ≠ [] ∧
    (∀ c ∈ natDigitsAux fuel n, c.isDigit = true) ∧
    ∀ a, (natDigitsAux fuel n).foldl (fun a c => a * 10 + digitVal c) a =
      a * 10 ^ (natDigitsAux fuel n).length + n := by
  intro fuel
  induction fuel with
  | zero => intro n hn; omega
  | succ f ih =>
    intro n hn
    by_cases h10 : n < 10
    · refine ⟨by simp [natDigitsAux, h10], ?_, ?_⟩
      · intro c hc
        simp [natDigitsAux, h10] at hc
        rw [hc]
        exact (digitChar_spec n h10).1
      · intro a
        simp [natDigitsAux, h10, (digitChar_spec n h10).2]
    · have hdiv : n / 10 < f := by omega
      obtain ⟨hne, hall, hfold⟩ := ih (n / 10) hdiv
      have hmod : n % 10 < 10 := Nat.mod_lt n (by omega)
      refine ⟨by simp [natDigitsAux, h10], ?_, ?_⟩
      · intro c hc
        simp only [natDigitsAux, if_neg h10, List.mem_append, List.mem_singleton] at hc
        rcases hc with hc | hc
        · exact hall c hc
        · rw [hc]; exact (digitChar_spec _ hmod).1
      · intro a
        simp only [natDigitsAux, if_neg h10, List.foldl_append, List.length_append,
          List.foldl_cons, List.foldl_nil, List.length_cons, List.length_nil]
        rw [hfold a, (digitChar_spec _ hmod).2]
        have hP : (10 : Nat) ^ ((natDigitsAux f (n / 10)).length + (0 + 1)) =
            10 ^ (natDigitsAux f (n / 10)).length * 10 := by
          rw [Nat.pow_add]
        rw [hP]
        have hdm : n / 10 * 10 + n % 10 = n := by omega
        calc (a * 10 ^ (natDigitsAux f (n / 10)).length + n / 10) * 10 + n % 10
            = a * (10 ^ (natDigitsAux f (n / 10)).length * 10) + (n / 10 * 10 + n % 10) := by
              ring
          _ = a * (10 ^ (natDigitsAux f (n / 10)).length * 10) + n := by rw [hdm]

theorem natDigits_spec (n : Nat) :
    natDigits n ≠ [] ∧ (∀ c ∈ natDigits n, c.isDigit = true) ∧
    decodeDigits (natDigits n) = n := by
  obtain ⟨hne, hall, hfold⟩ := natDigitsAux_spec (n + 1) n (by omega)
  exact ⟨hne, hall, by simpa [decodeDigits] using hfold 0⟩

theorem natDigits_head (n : Nat) :
    ∃ d ds, natDigits n = d :: ds ∧ d.isDigit = true := by
  obtain ⟨hne, hall, _⟩ := natDigits_spec n
  cases hd : natDigits n with
  | nil => exact absurd hd hne
  | cons d ds => exact ⟨d, ds, rfl, hall d (by rw [hd]; simp)⟩

theorem takeWhile_all_append (p : Char → Bool) :
    ∀ (l r : List Char), (∀ c ∈ l, p c = true) → headNot p r →
      (l ++ r).takeWhile p = l ∧ (l ++ r).dropWhile p = r := by
  intro l
  induction l with
  | nil =>
    intro r _ hr
    cases r with
    | nil => simp
    | cons c r2 =>
      have : p c = false := hr
      simp [List.takeWhile_cons, List.dropWhile_cons, this]
  | cons c l2 ih =>
    intro r hall hr
    have hc : p c = true := hall c (by simp)
    have h2 := ih r (fun x hx => hall x (by simp [hx])) hr
    simp [List.takeWhile_cons, List.dropWhile_cons, hc, h2.1, h2.2]

theorem parseNum_natDigits (n : Nat) (rest : List Char) (hr : headNot Char.isDigit rest) :
    parseNum (natDigits n ++ rest) = some (.num (n : Int), rest) := by
  obtain ⟨hne, hall, hdec⟩ := natDigits_spec n
  obtain ⟨d, ds, hd, hdig⟩ := natDigits_head n
  have hdm : d ≠ '-' := by intro h; rw [h] at hdig; exact absurd hdig (by decide)
  obtain ⟨ht, hdr⟩ := takeWhile_all_append Char.isDigit (natDigits n) rest hall hr
  rw [hd] at ht hdr
  rw [List.cons_append] at ht hdr
  rw [hd, List.cons_append]
  simp only [parseNum, if_neg hdm]
  rw [ht, hdr]
  have hemp : (d :: ds).isEmpty = false := rfl
  rw [hemp, if_neg (by simp : ¬(false = true)), ← hd, hdec]

theorem parseNum_intRepr (i : Int) (rest : List Char) (hr : headNot Char.isDigit rest) :
    parseNum (intRepr i ++ rest) = some (.num i, rest) := by
  by_cases hi : i < 0
  · simp only [intRepr, if_pos hi, List.cons_append]
    obtain ⟨hne, hall, hdec⟩ := natDigits_spec i.natAbs
    obtain ⟨ht, hdr⟩ := takeWhile_all_append Char.isDigit (natDigits i.natAbs) rest hall hr
    simp only [parseNum, if_pos (rfl : ('-' : Char) = '-')]
    rw [ht, hdr]
    have hne2 : (natDigits i.natAbs).isEmpty = false := by
      cases h : natDigits i.natAbs with
      | nil => exact absurd h hne
      | cons a b => simp
    rw [hne2]
    simp only [Bool.false_eq_true, if_false, hdec]
    have : -((i.natAbs : Nat) : Int) = i := by omega
    rw [this]
    simp
  · simp only [intRepr, if_neg hi]
    have : ((i.natAbs : Nat) : Int) = i := by omega
    rw [← this]
    exact parseNum_natDigits i.natAbs rest hr

theorem skipWs_cons_not (c : Char) (r : List Char) (h : isWsChar c = false) :
    skipWs (c :: r) = c :: r := by
  simp [skipWs, h]

theorem skipWs_ws_append : ∀ l r : List Char, (∀ c ∈ l, isWsChar c = true) →
    skipWs (l ++ r) = skipWs r := by
  intro l
  induction l with
  | nil => intro r _; rfl
  | cons c l2 ih =>
    intro r h
    have hc : isWsChar c = true := h c (by simp)
    simp only [List.cons_append, skipWs, hc, if_pos]
    exact ih r (fun x hx => h x (by simp [hx]))

theorem nlIndent_ws (lvl : Nat) : ∀ c ∈ nlIndent lvl, isWsChar c = true := by
  intro c hc
  simp only [nlIndent, List.mem_cons, List.mem_replicate] at hc
  rcases hc with hc | hc
  · rw [hc]; decide
  · rw [hc.2]; decide

theorem skipWs_nlIndent (lvl : Nat) (r : List Char) :
    skipWs (nlIndent lvl ++ r) = skipWs r :=
  skipWs_ws_append (nlIndent lvl) r (nlIndent_ws lvl)

theorem parseVal_past_ws (fuel : Nat) (l cs : List Char)
    (h : ∀ c ∈ l, isWsChar c = true) :
    parseVal fuel (l ++ cs) = parseVal fuel cs := by
  cases fuel with
  | zero => rfl
  | succ f => simp only [parseVal, skipWs_ws_append l cs h]

theorem ws_not_digit (c : Char) (h : isWsChar c = true) : c.isDigit = false := by
  simp only [isWsChar, Bool.or_eq_true, decide_eq_true_eq] at h
  rcases h with ((h | h) | h) | h <;> subst h <;> decide

theorem headNot_digit_of_skipWs (t : List Char) (d : Char) (r : List Char)
    (h : skipWs t = d :: r) (hd : d.isDigit = false) : headNot Char.isDigit t := by
  cases t with
  | nil => exact absurd h (by simp [skipWs])
  | cons c t2 =>
    show c.isDigit = false
    by_cases hw : isWsChar c = true
    · exact ws_not_digit c hw
    · rw [skipWs_cons_not c t2 (by simpa using hw)] at h
      injection h with h1 _
      rw [h1]
      exact hd

/-- A decimal digit is none of the characters the parser's dispatch and
delimiter tests look for. -/
theorem digit_char_facts (c : Char) (h : c.isDigit = true) :
    c ≠ '"' ∧ c ≠ '[' ∧ c ≠ '\x7b' ∧ c ≠ 't' ∧ c ≠ 'f' ∧ c ≠ 'n' ∧
    isWsChar c = false ∧ c ≠ ']' ∧ c ≠ '\x7d' ∧ c ≠ ',' ∧ c ≠ ':' ∧ c ≠ '\\' := by
  have hws : isWsChar c = false := by
    cases hw : isWsChar c with
    | false => rfl
    | true =>
      have := ws_not_digit c hw
      rw [h] at this
      exact Bool.noConfusion this
  refine ⟨?_, ?_, ?_, ?_, ?_, ?_, hws, ?_, ?_, ?_, ?_, ?_⟩ <;>
    (intro he; rw [he] at h; exact absurd h (by decide))

theorem hexChar_spec : ∀ m, m < 16 → isHexDig (hexChar m) = true ∧ hexVal (hexChar m) = m := by
  intro m hm
  interval_cases m <;> exact ⟨by decide, by decide⟩

/-- One-step unfolding of `parseStrBody` on a cons cell (its automatically
generated equations are split along the escape lookahead). -/
theorem parseStrBody_eq (c : Char) (r : List Char) :
    parseStrBody (c :: r) =
      (if c = '"' then some ([], r)
       else if c = '\\' then
         match r with
         | [] => none
         | e :: rest2 =>
           if e = '"' then (parseStrBody rest2).map (fun p => ('"' :: p.1, p.2))
           else if e = '\\' then (parseStrBody rest2).map (fun p => ('\\' :: p.1, p.2))
           else if e = '/' then (parseStrBody rest2).map (fun p => ('/' :: p.1, p.2))
           else if e = 'n' then (parseStrBody rest2).map (fun p => ('\n' :: p.1, p.2))
           else if e = 'r' then (parseStrBody rest2).map (fun p => ('\r' :: p.1, p.2))
           else if e = 't' then (parseStrBody rest2).map (fun p => ('\t' :: p.1, p.2))
           else if e = 'b' then (parseStrBody rest2).map (fun p => ('\x08' :: p.1, p.2))
           else if e = 'f' then (parseStrBody rest2).map (fun p => ('\x0c' :: p.1, p.2))
           else if e = 'u' then
             match rest2 with
             | d1 :: d2 :: d3 :: d4 :: rest3 =>
               if isHexDig d1 && isHexDig d2 && isHexDig d3 && isHexDig d4 then
                 (parseStrBody rest3).map (fun p =>
                   (Char.ofNat (hexVal d1 * 4096 + hexVal d2 * 256 + hexVal d3 * 16 + hexVal d4)
                     :: p.1, p.2))
               else none
             | _ => none
           else none
       else (parseStrBody r).map (fun p => (c :: p.1, p.2))) := by
  rcases r with _ | ⟨e, _ | ⟨d1, _ | ⟨d2, _ | ⟨d3, _ | ⟨d4, r3⟩⟩⟩⟩⟩ <;> rfl

theorem parseStrBody_round : ∀ s rest : List Char,
    parseStrBody (s.flatMap escapeChar ++ '"' :: rest) = some (s, rest) := by
  intro s
  induction s with
  | nil => intro rest; simp [parseStrBody_eq]
  | cons c s2 ih =>
    intro rest
    rw [List.flatMap_cons, List.append_assoc]
    by_cases h1 : c = '"'
    · subst h1; simp [escapeChar, parseStrBody_eq, ih]
    by_cases h2 : c = '\\'
    · subst h2; simp [escapeChar, parseStrBody_eq, ih]
    by_cases h3 : c = '\n'
    · subst h3; simp [escapeChar, parseStrBody_eq, ih]
    by_cases h4 : c = '\r'
    · subst h4; simp [escapeChar, parseStrBody_eq, ih]
    by_cases h5 : c = '\t'
    · subst h5; simp [escapeChar, parseStrBody_eq, ih]
    by_cases h6 : c = '\x08'
    · subst h6; simp [escapeChar, parseStrBody_eq, ih]
    by_cases h7 : c = '\x0c'
    · subst h7; simp [escapeChar, parseStrBody_eq, ih]
    by_cases h8 : c.toNat < 32
    · have ha := hexChar_spec (c.toNat / 16) (by omega)
      have hb := hexChar_spec (c.toNat % 16) (by omega)
      simp only [escapeChar, if_neg h1, if_neg h2, if_neg h3, if_neg h4, if_neg h5,
        if_neg h6, if_neg h7, if_pos h8, List.cons_append, List.nil_append]
      have hv : hexVal '0' * 4096 + hexVal '0' * 256 +
          hexVal (hexChar (c.toNat / 16)) * 16 + hexVal (hexChar (c.toNat % 16)) = c.toNat := by
        rw [ha.2, hb.2]
        have h0 : hexVal '0' = 0 := by decide
        rw [h0]
        omega
      rw [parseStrBody_eq]
      simp [ha.1, hb.1, show isHexDig '0' = true from by decide, ih, hv, Char.ofNat_toNat]
    · simp only [escapeChar, if_neg h1, if_neg h2, if_neg h3, if_neg h4, if_neg h5,
        if_neg h6, if_neg h7, if_neg h8, List.cons_append, List.nil_append]
      rw [parseStrBody_eq, if_neg h1, if_neg h2, ih]
      rfl

theorem sizeV_pos : ∀ j : Json, 1 ≤ sizeV j := by
  intro j
  cases j <;> simp [sizeV]

theorem sizeItems_pos : ∀ xs : List Json, 1 ≤ sizeItems xs := by
  intro xs
  cases xs <;> simp [sizeItems] <;> omega

theorem sizeMems_pos : ∀ ms : List (String × Json), 1 ≤ sizeMems ms := by
  intro ms
  rcases ms with _ | ⟨⟨k, v⟩, ms2⟩ <;> simp [sizeMems] <;> omega

/-- Every serialized document starts with a non-whitespace character that
is none of the structural delimiters the parser looks for after a value. -/
theorem dumpVal_head (j : Json) (lvl : Nat) :
    ∃ c t, dumpVal j lvl = c :: t ∧ isWsChar c = false ∧
      c ≠ ']' ∧ c ≠ '\x7d' ∧ c ≠ ',' ∧ c ≠ ':' := by
  cases j with
  | null => exact ⟨'n', _, rfl, by decide, by decide, by decide, by decide, by decide⟩
  | bool b =>
    cases b with
    | true => exact ⟨'t', _, rfl, by decide, by decide, by decide, by decide, by decide⟩
    | false => exact ⟨'f', _, rfl, by decide, by decide, by decide, by decide, by decide⟩
  | num i =>
    by_cases hi : i < 0
    · exact ⟨'-', natDigits i.natAbs, by simp [dumpVal, intRepr, hi], by decide, by decide,
        by decide, by decide, by decide⟩
    · obtain ⟨d, ds, hd, hdig⟩ := natDigits_head i.natAbs
      obtain ⟨_, _, _, _, _, _, hws, hrb, hcb, hcm, hcl, _⟩ := digit_char_facts d hdig
      exact ⟨d, ds, by simp [dumpVal, intRepr, hi, hd], hws, hrb, hcb, hcm, hcl⟩
  | str s => exact ⟨'"', _, rfl, by decide, by decide, by decide, by decide, by decide⟩
  | arr xs =>
    cases xs with
    | nil => exact ⟨'[', _, rfl, by decide, by decide, by decide, by decide, by decide⟩
    | cons x xs2 =>
      exact ⟨'[', _, rfl, by decide, by decide, by decide, by decide, by decide⟩
  | obj ms =>
    cases ms with
    | nil => exact ⟨'\x7b', _, rfl, by decide, by decide, by decide, by decide, by decide⟩
    | cons m ms2 =>
      exact ⟨'\x7b', nlIndent (lvl + 1) ++ dumpMember m (lvl + 1) ++ dumpObjRest ms2 (lvl + 1) ++
        nlIndent lvl ++ ['\x7d'], rfl, by decide, by decide, by decide, by decide, by decide⟩

/-- The core round trip: on serializer output, the parser (with fuel at
least the document's size) consumes exactly the serialized value and
returns the document unchanged. -/
theorem parse_dump_round : ∀ fuel : Nat,
    (∀ (j : Json) (lvl : Nat) (rest : List Char), sizeV j ≤ fuel → headNot Char.isDigit rest →
      parseVal fuel (dumpVal j lvl ++ rest) = some (j, rest)) ∧
    (∀ (x : Json) (xs : List Json) (lvl : Nat) (tail rest : List Char),
      sizeItems (x :: xs) ≤ fuel → skipWs tail = ']' :: rest →
      parseArrItems fuel (nlIndent lvl ++ (dumpVal x lvl ++ (dumpArrRest xs lvl ++ tail))) =
        some (x :: xs, rest)) ∧
    (∀ (k : String) (v : Json) (ms : List (String × Json)) (lvl : Nat) (tail rest : List Char),
      sizeMems ((k, v) :: ms) ≤ fuel → skipWs tail = '\x7d' :: rest →
      parseObjItems fuel
          (nlIndent lvl ++ (dumpMember (k, v) lvl ++ (dumpObjRest ms lvl ++ tail))) =
        some ((k, v) :: ms, rest)) := by
  intro fuel
  induction fuel with
  | zero =>
    refine ⟨?_, ?_, ?_⟩
    · intro j _ _ hs _
      have := sizeV_pos j
      omega
    · intro x xs _ _ _ hs _
      have h1 := sizeV_pos x
      have h2 := sizeItems_pos xs
      have h3 : sizeItems (x :: xs) = 1 + sizeV x + sizeItems xs := rfl
      omega
    · intro k v ms _ _ _ hs _
      have h1 := sizeV_pos v
      have h2 := sizeMems_pos ms
      have h3 : sizeMems ((k, v) :: ms) = 1 + sizeV v + sizeMems ms := rfl
      omega
  | succ f ih =>
    obtain ⟨ihV, ihA, ihO⟩ := ih
    refine ⟨?_, ?_, ?_⟩
    · -- values
      intro j lvl rest hs hr
      cases j with
      | null =>
        have hshape : dumpVal Json.null lvl ++ rest = 'n' :: 'u' :: 'l' :: 'l' :: rest := rfl
        rw [hshape]
        simp only [parseVal]
        rw [skipWs_cons_not _ _ (by decide)]
        simp
      | bool b =>
        cases b with
        | true =>
          have hshape : dumpVal (Json.bool true) lvl ++ rest =
              't' :: 'r' :: 'u' :: 'e' :: rest := rfl
          rw [hshape]
          simp only [parseVal]
          rw [skipWs_cons_not _ _ (by decide)]
          simp
        | false =>
          have hshape : dumpVal (Json.bool false) lvl ++ rest =
              'f' :: 'a' :: 'l' :: 's' :: 'e' :: rest := rfl
          rw [hshape]
          simp only [parseVal]
          rw [skipWs_cons_not _ _ (by decide)]
          simp
      | num i =>
        by_cases hi : i < 0
        · have hshape : dumpVal (Json.num i) lvl ++ rest =
              '-' :: (natDigits i.natAbs ++ rest) := by
            simp [dumpVal, intRepr, hi]
          rw [hshape]
          simp only [parseVal]
          rw [skipWs_cons_not _ _ (by decide)]
          have hp := parseNum_intRepr i rest hr
          rw [intRepr, if_pos hi, List.cons_append] at hp
          simp [hp]
        · obtain ⟨d, ds, hd, hdig⟩ := natDigits_head i.natAbs
          obtain ⟨f1, f2, f3, f4, f5, f6, fws, _, _, _, _, _⟩ := digit_char_facts d hdig
          have hshape : dumpVal (Json.num i) lvl ++ rest = d :: (ds ++ rest) := by
            simp [dumpVal, intRepr, hi, hd]
          rw [hshape]
          simp only [parseVal]
          rw [skipWs_cons_not _ _ fws]
          have hp := parseNum_intRepr i rest hr
          rw [intRepr, if_neg hi, hd, List.cons_append] at hp
          simp [f1, f2, f3, f4, f5, f6, hdig, hp]
      | str s =>
        have hshape : dumpVal (Json.str s) lvl ++ rest =
            '"' :: (s.data.flatMap escapeChar ++ '"' :: rest) := by
          simp [dumpVal, encodeString]
        rw [hshape]
        simp only [parseVal]
        rw [skipWs_cons_not _ _ (by decide)]
        have hmk : (⟨s.data⟩ : String) = s := rfl
        simp [parseStrBody_round, hmk]
      | arr xs =>
        cases xs with
        | nil =>
          have hshape : dumpVal (Json.arr []) lvl ++ rest = '[' :: ']' :: rest := rfl
          rw [hshape]
          simp only [parseVal]
          rw [skipWs_cons_not _ _ (by decide)]
          have h2 : skipWs (']' :: rest) = ']' :: rest := skipWs_cons_not _ _ (by decide)
          simp [h2]
        | cons x xs2 =>
          obtain ⟨c0, t0, hc0, hws0, hnb0, _, _, _⟩ := dumpVal_head x (lvl + 1)
          have hsz : sizeItems (x :: xs2) ≤ f := by
            simp [sizeV] at hs
            omega
          have htail : skipWs (nlIndent lvl ++ ']' :: rest) = ']' :: rest := by
            rw [skipWs_nlIndent]
            exact skipWs_cons_not _ _ (by decide)
          have harr := ihA x xs2 (lvl + 1) (nlIndent lvl ++ ']' :: rest) rest hsz htail
          have hshape : dumpVal (Json.arr (x :: xs2)) lvl ++ rest =
              '[' :: (nlIndent (lvl + 1) ++ (dumpVal x (lvl + 1) ++
                (dumpArrRest xs2 (lvl + 1) ++ (nlIndent lvl ++ ']' :: rest)))) := by
            simp [dumpVal]
          rw [hshape]
          simp only [parseVal]
          rw [skipWs_cons_not _ _ (by decide)]
          have hsw : skipWs (nlIndent (lvl + 1) ++ (dumpVal x (lvl + 1) ++
              (dumpArrRest xs2 (lvl + 1) ++ (nlIndent lvl ++ ']' :: rest)))) =
              c0 :: (t0 ++ (dumpArrRest xs2 (lvl + 1) ++ (nlIndent lvl ++ ']' :: rest))) := by
            rw [skipWs_nlIndent, hc0, List.cons_append]
            exact skipWs_cons_not _ _ hws0
          simp [hsw, hnb0, harr]
      | obj ms =>
        cases ms with
        | nil =>
          have hshape : dumpVal (Json.obj []) lvl ++ rest = '\x7b' :: '\x7d' :: rest := rfl
          rw [hshape]
          simp only [parseVal]
          rw [skipWs_cons_not _ _ (by decide)]
          have h2 : skipWs ('\x7d' :: rest) = '\x7d' :: rest := skipWs_cons_not _ _ (by decide)
          simp [h2]
        | cons m ms2 =>
          obtain ⟨k, v⟩ := m
          have hsz : sizeMems ((k, v) :: ms2) ≤ f := by
            simp [sizeV] at hs
            omega
          have htail : skipWs (nlIndent lvl ++ '\x7d' :: rest) = '\x7d' :: rest := by
            rw [skipWs_nlIndent]
            exact skipWs_cons_not _ _ (by decide)
          have hobj := ihO k v ms2 (lvl + 1) (nlIndent lvl ++ '\x7d' :: rest) rest hsz htail
          have hshape : dumpVal (Json.obj ((k, v) :: ms2)) lvl ++ rest =
              '\x7b' :: (nlIndent (lvl + 1) ++ (dumpMember (k, v) (lvl + 1) ++
                (dumpObjRest ms2 (lvl + 1) ++ (nlIndent lvl ++ '\x7d' :: rest)))) := by
            simp [dumpVal]
          rw [hshape]
          simp only [parseVal]
          rw [skipWs_cons_not _ _ (by decide)]
          have hsw : skipWs (nlIndent (lvl + 1) ++ (dumpMember (k, v) (lvl + 1) ++
              (dumpObjRest ms2 (lvl + 1) ++ (nlIndent lvl ++ '\x7d' :: rest)))) =
              '"' :: (k.data.flatMap escapeChar ++ ('"' :: (':' :: ' ' ::
                (dumpVal v (lvl + 1) ++ (dumpObjRest ms2 (lvl + 1) ++
                  (nlIndent lvl ++ '\x7d' :: rest)))))) := by
            rw [skipWs_nlIndent]
            have hm : dumpMember (k, v) (lvl + 1) ++ (dumpObjRest ms2 (lvl + 1) ++
                (nlIndent lvl ++ '\x7d' :: rest)) =
                '"' :: (k.data.flatMap escapeChar ++ ('"' :: (':' :: ' ' ::
                  (dumpVal v (lvl + 1) ++ (dumpObjRest ms2 (lvl + 1) ++
                    (nlIndent lvl ++ '\x7d' :: rest)))))) := by
              simp [dumpMember, encodeString]
            rw [hm]
            exact skipWs_cons_not _ _ (by decide)
          simp [hsw, hobj]
    · -- array items
      intro x xs lvl tail rest hs htail
      simp only [parseArrItems]
      rw [parseVal_past_ws f (nlIndent lvl) _ (nlIndent_ws lvl)]
      have hrest2 : headNot Char.isDigit (dumpArrRest xs lvl ++ tail) := by
        cases xs with
        | nil =>
          simpa [dumpArrRest] using headNot_digit_of_skipWs tail ']' rest htail (by decide)
        | cons y ys => exact (by decide : Char.isDigit ',' = false)
      have hszx : sizeV x ≤ f := by
        have := sizeItems_pos xs
        simp [sizeItems] at hs
        omega
      rw [ihV x lvl _ hszx hrest2]
      cases xs with
      | nil =>
        simp only [dumpArrRest, List.nil_append]
        rw [htail]
        simp
      | cons y ys =>
        have hsz2 : sizeItems (y :: ys) ≤ f := by
          have := sizeV_pos x
          simp [sizeItems] at hs ⊢
          omega
        have hnext := ihA y ys lvl tail rest hsz2 htail
        have hsw : skipWs (dumpArrRest (y :: ys) lvl ++ tail) =
            ',' :: (nlIndent lvl ++ (dumpVal y lvl ++ (dumpArrRest ys lvl ++ tail))) := by
          have hm : dumpArrRest (y :: ys) lvl ++ tail =
              ',' :: (nlIndent lvl ++ (dumpVal y lvl ++ (dumpArrRest ys lvl ++ tail))) := by
            simp [dumpArrRest]
          rw [hm]
          exact skipWs_cons_not _ _ (by decide)
        simp [hsw, hnext]
    · -- object members
      intro k v ms lvl tail rest hs htail
      simp only [parseObjItems]
      have hsw : skipWs (nlIndent lvl ++ (dumpMember (k, v) lvl ++ (dumpObjRest ms lvl ++ tail))) =
          '"' :: (k.data.flatMap escapeChar ++ ('"' :: (':' :: ' ' ::
            (dumpVal v lvl ++ (dumpObjRest ms lvl ++ tail))))) := by
        rw [skipWs_nlIndent]
        have hm : dumpMember (k, v) lvl ++ (dumpObjRest ms lvl ++ tail) =
            '"' :: (k.data.flatMap escapeChar ++ ('"' :: (':' :: ' ' ::
              (dumpVal v lvl ++ (dumpObjRest ms lvl ++ tail))))) := by
          simp [dumpMember, encodeString]
        rw [hm]
        exact skipWs_cons_not _ _ (by decide)
      rw [hsw]
      have hrest2 : headNot Char.isDigit (dumpObjRest ms lvl ++ tail) := by
        cases ms with
        | nil =>
          simpa [dumpObjRest] using headNot_digit_of_skipWs tail '\x7d' rest htail (by decide)
        | cons m2 ms2 =>
          rcases m2 with ⟨k2, v2⟩
          exact (by decide : Char.isDigit ',' = false)
      have hszv : sizeV v ≤ f := by
        have := sizeMems_pos ms
        simp [sizeMems] at hs
        omega
      have hval : parseVal f (' ' :: (dumpVal v lvl ++ (dumpObjRest ms lvl ++ tail))) =
          some (v, dumpObjRest ms lvl ++ tail) := by
        have hws : ∀ c ∈ [' '], isWsChar c = true := by
          intro c hc
          simp at hc
          rw [hc]
          decide
        have := parseVal_past_ws f [' '] (dumpVal v lvl ++ (dumpObjRest ms lvl ++ tail)) hws
        simp only [List.singleton_append] at this
        rw [this]
        exact ihV v lvl _ hszv hrest2
      have hmk : (⟨k.data⟩ : String) = k := rfl
      cases ms with
      | nil =>
        simp only [dumpObjRest, List.nil_append] at hval ⊢
        have hcolon : skipWs (':' :: ' ' :: (dumpVal v lvl ++ tail)) =
            ':' :: ' ' :: (dumpVal v lvl ++ tail) := skipWs_cons_not _ _ (by decide)
        simp [parseStrBody_round, hcolon, hval, htail, hmk]
      | cons m2 ms2 =>
        rcases m2 with ⟨k2, v2⟩
        have hsz2 : sizeMems ((k2, v2) :: ms2) ≤ f := by
          have := sizeV_pos v
          simp [sizeMems] at hs ⊢
          omega
        have hnext := ihO k2 v2 ms2 lvl tail rest hsz2 htail
        have hsw2 : skipWs (dumpObjRest ((k2, v2) :: ms2) lvl ++ tail) =
            ',' :: (nlIndent lvl ++ (dumpMember (k2, v2) lvl ++ (dumpObjRest ms2 lvl ++ tail))) := by
          have hm : dumpObjRest ((k2, v2) :: ms2) lvl ++ tail =
              ',' :: (nlIndent lvl ++ (dumpMember (k2, v2) lvl ++ (dumpObjRest ms2 lvl ++ tail))) := by
            simp [dumpObjRest]
          rw [hm]
          exact skipWs_cons_not _ _ (by decide)
        have hcolon : skipWs (':' :: ' ' :: (dumpVal v lvl ++
            (dumpObjRest ((k2, v2) :: ms2) lvl ++ tail))) =
            ':' :: ' ' :: (dumpVal v lvl ++ (dumpObjRest ((k2, v2) :: ms2) lvl ++ tail)) :=
          skipWs_cons_not _ _ (by decide)
        simp [parseStrBody_round, hcolon, hval, hsw2, hnext, hmk]

mutual
/-- Each node costs at least one output character, so the top-level fuel
`input length + 1` always covers the document's size. -/
theorem sizeV_le_dump : ∀ (j : Json) (lvl : Nat), sizeV j ≤ (dumpVal j lvl).length
  | .null, lvl => by simp [sizeV, dumpVal]
  | .bool b, lvl => by cases b <;> simp [sizeV, dumpVal]
  | .num i, lvl => by
    obtain ⟨d, ds, hd, _⟩ := natDigits_head i.natAbs
    by_cases hi : i < 0
    · simp [sizeV, dumpVal, intRepr, hi, hd]
    · simp [sizeV, dumpVal, intRepr, hi, hd]
  | .str s, lvl => by simp [sizeV, dumpVal, encodeString]
  | .arr [], lvl => by simp [sizeV, sizeItems, dumpVal]
  | .arr (x :: xs), lvl => by
    have h1 := sizeV_le_dump x (lvl + 1)
    have h2 := sizeItems_le_dump xs (lvl + 1)
    simp only [sizeV, sizeItems, dumpVal, nlIndent, List.length_cons, List.length_append,
      List.length_replicate, List.length_singleton]
    omega
  | .obj [], lvl => by simp [sizeV, sizeMems, dumpVal]
  | .obj ((k, v) :: ms), lvl => by
    have h1 := sizeV_le_dump v (lvl + 1)
    have h2 := sizeMems_le_dump ms (lvl + 1)
    simp only [sizeV, sizeMems, dumpVal, dumpMember, nlIndent, encodeString,
      List.length_cons, List.length_append, List.length_replicate, List.length_singleton]
    omega

/-- Fuel bound for the serialized items of an array. -/
theorem sizeItems_le_dump : ∀ (xs : List Json) (lvl : Nat),
    sizeItems xs ≤ (dumpArrRest xs lvl).length + 2
  | [], lvl => by simp [sizeItems, dumpArrRest]
  | x :: xs, lvl => by
    have h1 := sizeV_le_dump x lvl
    have h2 := sizeItems_le_dump xs lvl
    simp only [sizeItems, dumpArrRest, nlIndent, List.length_cons, List.length_append,
      List.length_replicate]
    omega

/-- Fuel bound for the serialized members of an object. -/
theorem sizeMems_le_dump : ∀ (ms : List (String × Json)) (lvl : Nat),
    sizeMems ms ≤ (dumpObjRest ms lvl).length + 2
  | [], lvl => by simp [sizeMems, dumpObjRest]
  | (k, v) :: ms, lvl => by
    have h1 := sizeV_le_dump v lvl
    have h2 := sizeMems_le_dump ms lvl
    simp only [sizeMems, dumpObjRest, dumpMember, nlIndent, encodeString, List.length_cons,
      List.length_append, List.length_replicate]
    omega
end

/-- Round trip at the whole-document level: `json.load` applied to what
`json.dump(v, indent=2, ensure_ascii=False)` wrote returns the same
document. -/
theorem parseJson_pyDumps (j : Json) : parseJson (pyDumps j) = some j := by
  have hsz : sizeV j ≤ (dumpVal j 0).length + 1 :=
    le_trans (sizeV_le_dump j 0) (by omega)
  have h := (parse_dump_round ((dumpVal j 0).length + 1)).1 j 0 [] hsz trivial
  rw [List.append_nil] at h
  show (match parseVal ((dumpVal j 0).length + 1) (dumpVal j 0) with
    | some (jj, rest) => if (skipWs rest).isEmpty then some jj else none
    | none => none) = some j
  rw [h]
  simp [skipWs]

/-! ## Claim C3: JSON array sampling -/

/-- C3: for every `.json` source parsing to a top-level array of length
`N` and every limit `L`, a failure-free filtering run reports success and
writes exactly the `indent=2, ensure_ascii=False` serialization of the
array of the first `min(N, L)` elements; that output parses back (valid
JSON) to precisely that array — `min(N, L)` elements, structurally equal,
in order — and the serializer leaves every non-ASCII character unescaped. -/
theorem c3_array_filter (env : IOEnv) (src : String) (xs : List Json) (L : Nat)
    (d0 : Option String) (hso : env.srcOpenOk = true) (hdk : env.destOk = true)
    (htr : env.textReadFail = none) (hp : parseJson src = some (.arr xs)) :
    filter_json_file env src L d0 = (true, some (pyDumps (.arr (xs.take L)))) ∧
    parseJson (pyDumps (.arr (xs.take L))) = some (.arr (xs.take L)) ∧
    (xs.take L).length = min xs.length L ∧
    (∀ c : Char, 127 < c.toNat → escapeChar c = [c]) := by
  refine ⟨?_, parseJson_pyDumps _, ?_, ?_⟩
  · simp [filter_json_file, hso, hdk, htr, hp]
  · rw [List.length_take, Nat.min_comm]
  · intro c hc
    have h1 : c ≠ '"' := by intro h; rw [h] at hc; exact absurd hc (by decide)
    have h2 : c ≠ '\\' := by intro h; rw [h] at hc; exact absurd hc (by decide)
    have h3 : c ≠ '\n' := by intro h; rw [h] at hc; exact absurd hc (by decide)
    have h4 : c ≠ '\r' := by intro h; rw [h] at hc; exact absurd hc (by decide)
    have h5 : c ≠ '\t' := by intro h; rw [h] at hc; exact absurd hc (by decide)
    have h6 : c ≠ '\x08' := by intro h; rw [h] at hc; exact absurd hc (by decide)
    have h7 : c ≠ '\x0c' := by intro h; rw [h] at hc; exact absurd hc (by decide)
    have h8 : ¬c.toNat < 32 := by omega
    simp [escapeChar, h1, h2, h3, h4, h5, h6, h7, h8]

/-- C3 witness: the spec's scenario `list.json` — a 3-element array with
limit 2 keeps the first 2 elements, serialized with 2-space indentation. -/
theorem c3_witness :
    filter_json_file allOk "[1, 2, 3]" 2 none = (true, some "[\n  1,\n  2\n]") := by
  have h := (c3_array_filter allOk "[1, 2, 3]" [.num 1, .num 2, .num 3] 2 none
    rfl rfl rfl (by rfl)).1
  rw [h]
  rfl

/-! ## Claim C5: JSON non-array sampling -/

/-- C5: for every `.json` source parsing to a non-array document, a
failure-free filtering run reports success and writes the `indent=2,
ensure_ascii=False` serialization of the *entire* document; the output
parses back (valid JSON) structurally equal to the source document, and
the result does not depend on the row limit. -/
theorem c5_nonarray_filter (env : IOEnv) (src : String) (doc : Json) (L Lp : Nat)
    (d0 : Option String) (hso : env.srcOpenOk = true) (hdk : env.destOk = true)
    (htr : env.textReadFail = none) (hp : parseJson src = some doc)
    (hna : ∀ xs, doc ≠ .arr xs) :
    filter_json_file env src L d0 = (true, some (pyDumps doc)) ∧
    parseJson (pyDumps doc) = some doc ∧
    filter_json_file env src L d0 = filter_json_file env src Lp d0 := by
  cases doc with
  | arr xs => exact absurd rfl (hna xs)
  | null =>
    exact ⟨by simp [filter_json_file, hso, hdk, htr, hp], parseJson_pyDumps _,
      by simp [filter_json_file, hso, hdk, htr, hp]⟩
  | bool b =>
    exact ⟨by simp [filter_json_file, hso, hdk, htr, hp], parseJson_pyDumps _,
      by simp [filter_json_file, hso, hdk, htr, hp]⟩
  | num i =>
    exact ⟨by simp [filter_json_file, hso, hdk, htr, hp], parseJson_pyDumps _,
      by simp [filter_json_file, hso, hdk, htr, hp]⟩
  | str s =>
    exact ⟨by simp [filter_json_file, hso, hdk, htr, hp], parseJson_pyDumps _,
      by simp [filter_json_file, hso, hdk, htr, hp]⟩
  | obj ms =>
    exact ⟨by simp [filter_json_file, hso, hdk, htr, hp], parseJson_pyDumps _,
      by simp [filter_json_file, hso, hdk, htr, hp]⟩

/-- C5 witness: the spec's scenario `config.json` — an object is
reproduced whole (modulo the stable 2-space formatting), for any limit. -/
theorem c5_witness :
    filter_json_file allOk "\x7b\"a\": 1\x7d" 2 none =
      (true, some "\x7b\n  \"a\": 1\n\x7d") ∧
    filter_json_file allOk "\x7b\"a\": 1\x7d" 2 none =
      filter_json_file allOk "\x7b\"a\": 1\x7d" 99 none := by
  have h := c5_nonarray_filter allOk "\x7b\"a\": 1\x7d" (.obj [("a", .num 1)]) 2 99 none
    rfl rfl rfl (by rfl) (fun xs h => Json.noConfusion h)
  exact ⟨by rw [h.1]; rfl, h.2.2⟩
